import Mathlib

/-!
Verification of the todo-app core (src/src/App.tsx) against its
natural-language specification.

The embedding below translates the data model and the operations of
`App.tsx` into Lean:

* a JS `Date` value is represented by its epoch-millisecond timestamp
  (`Nat`), which is what the code itself observes through `getTime()`;
* `Date.now()` is an input supplied by the environment (the `now`
  argument of `createTodo`);
* the `localStorage` slot holds the outcome of running `JSON.parse` on
  the stored string: `none` when the key is absent, `some (Except.error e)`
  when the stored string is present but not valid JSON (in JS,
  `JSON.parse` throws), `some (Except.ok j)` when it parses to the JSON
  value `j`;
* `JSON.stringify` of the collection is modelled structurally by
  `encodeTodos : List Todo → Json`; a `Date` inside it serialises (via
  `Date.prototype.toJSON`) to its ISO-8601 string, which denotes the
  timestamp injectively — the constructor `Json.dateStr` carries that
  timestamp and its injectivity is exactly the round-trippability of the
  textual date encoding;
* `Array.prototype.sort` (required stable since ES2019) is modelled by a
  stable insertion sort `sortByCmp`.
-/

namespace TodoApp

/-- `Todo.category` union type (App.tsx line 10). -/
inductive Category where
  | work
  | personal
  | shopping
  | health
  | other
deriving DecidableEq, Repr

/-- `Todo.priority` union type (App.tsx line 11). -/
inductive Priority where
  | low
  | medium
  | high
deriving DecidableEq, Repr

/-- The `Todo` interface (App.tsx lines 6-13). `id` is a JS number
produced by `Date.now()`, modelled as `Int`; `dueDate` is an optional JS
`Date`, modelled by its epoch-millisecond timestamp. -/
structure Todo where
  id : Int
  text : String
  completed : Bool
  category : Category
  priority : Priority
  dueDate : Option Nat
deriving DecidableEq, Repr

/-- The `Filter` union type (App.tsx line 15). -/
inductive StatusFilter where
  | all
  | active
  | completed
deriving DecidableEq, Repr

/-- Helper for the model of JS `String.prototype.trim`: drop leading
whitespace characters from a character list. -/
def dropLeadingWs : List Char → List Char
  | [] => []
  | c :: cs => if c.isWhitespace then dropLeadingWs cs else c :: cs

/-- Model of the platform builtin `String.prototype.trim` (App.tsx line
85 calls `inputValue.trim()`): remove leading and trailing whitespace. -/
def trimStr (s : String) : String :=
  ⟨dropLeadingWs (dropLeadingWs s.data.reverse).reverse⟩

/-- Model of the platform builtin `String.prototype.toLowerCase` (App.tsx
line 64): lower-case every character. -/
def toLowerStr (s : String) : String :=
  ⟨s.data.map Char.toLower⟩

/-- `handleSubmit` (App.tsx lines 83-98), restricted to its effect on the
collection: if `inputValue.trim()` is non-empty, append a new todo built
from the current form state; otherwise leave the collection unchanged.
`now` is the value `Date.now()` returned for this call; `selectedDate`
is the timestamp of `new Date(selectedDate)` when the date input is
non-empty, `none` when it is empty (the ternary on line 92). Note the
stored `text` is `inputValue` itself, not `inputValue.trim()`. -/
def createTodo (todos : List Todo) (now : Int) (inputValue : String)
    (selectedCategory : Category) (selectedPriority : Priority)
    (selectedDate : Option Nat) : List Todo :=
  if trimStr inputValue ≠ "" then
    todos ++ [{ id := now, text := inputValue, completed := false,
                category := selectedCategory, priority := selectedPriority,
                dueDate := selectedDate }]
  else
    todos

/-- `toggleTodo` (App.tsx lines 100-112), restricted to its effect on the
collection (the confetti call is presentation only): map over the todos,
flipping `completed` on every todo whose `id` equals the argument. -/
def toggleTodo (todos : List Todo) (id : Int) : List Todo :=
  todos.map fun todo =>
    if todo.id = id then { todo with completed := !todo.completed } else todo

/-- `deleteTodo` (App.tsx lines 114-116): keep the todos whose `id`
differs from the argument. -/
def deleteTodo (todos : List Todo) (id : Int) : List Todo :=
  todos.filter fun todo => todo.id ≠ id

/-- `a.startsWith b` on character lists (helper for the substring test
that models `String.prototype.includes`). -/
def startsWithL : List Char → List Char → Bool
  | _, [] => true
  | [], _ :: _ => false
  | a :: as, b :: bs => a == b && startsWithL as bs

/-- `hay` contains `needle` as a contiguous substring (helper modelling
`String.prototype.includes`). -/
def containsL : List Char → List Char → Bool
  | [], needle => needle.isEmpty
  | a :: t, needle => startsWithL (a :: t) needle || containsL t needle

/-- `s.includes sub` on strings, as in JS `s.includes(sub)`. -/
def includesStr (s sub : String) : Bool :=
  containsL s.toList sub.toList

/-- The search predicate (App.tsx line 64):
`todo.text.toLowerCase().includes(searchTerm.toLowerCase())`. -/
def searchKeep (searchTerm : String) (todo : Todo) : Bool :=
  includesStr (toLowerStr todo.text) (toLowerStr searchTerm)

/-- The status predicate (App.tsx lines 65-69): `active` keeps the not
completed, `completed` keeps the completed, anything else keeps all. -/
def statusKeep (statusFilter : StatusFilter) (todo : Todo) : Bool :=
  if statusFilter = StatusFilter.active then !todo.completed
  else if statusFilter = StatusFilter.completed then todo.completed
  else true

/-- `priorityOrder` (App.tsx line 72): `high` 0, `medium` 1, `low` 2. -/
def priorityOrder : Priority → Int
  | Priority.high => 0
  | Priority.medium => 1
  | Priority.low => 2

/-- The sort comparator (App.tsx lines 70-81): priority rank difference
when non-zero; otherwise the `getTime()` difference when both todos have
a due date; otherwise 0. -/
def cmpTodos (a b : Todo) : Int :=
  let priorityDiff := priorityOrder a.priority - priorityOrder b.priority
  if priorityDiff ≠ 0 then priorityDiff
  else
    match a.dueDate, b.dueDate with
    | some da, some db => (da : Int) - (db : Int)
    | _, _ => 0

/-- Stable insertion of `x` into `l`: `x` goes in front of the first
element it compares `≤ 0` against. -/
def insertSorted {α : Type} (cmp : α → α → Int) (x : α) : List α → List α
  | [] => [x]
  | y :: ys => if cmp x y ≤ 0 then x :: y :: ys else y :: insertSorted cmp x ys

/-- Model of `Array.prototype.sort` with comparator `cmp` (stable since
ES2019): a stable insertion sort. On every input where `cmp` induces a
total preorder — as in the concrete evaluations proved below — every
stable sort returns this same list. -/
def sortByCmp {α : Type} (cmp : α → α → Int) (l : List α) : List α :=
  l.foldr (insertSorted cmp) []

/-- `filteredTodos` (App.tsx lines 63-81): search filter, then status
filter, then sort. -/
def filteredTodos (todos : List Todo) (searchTerm : String)
    (statusFilter : StatusFilter) : List Todo :=
  sortByCmp cmpTodos
    ((todos.filter (searchKeep searchTerm)).filter (statusKeep statusFilter))

/-- JSON values, as produced by the platform `JSON.parse` and consumed by
`JSON.stringify`. `dateStr ms` is the ISO-8601 string a `Date` with
timestamp `ms` serialises to via `Date.prototype.toJSON`; the encoding is
injective (two distinct timestamps have distinct ISO strings), which the
constructor form makes definitional — this is the round-trippable textual
date form. -/
inductive Json where
  | null
  | bool (b : Bool)
  | num (n : Int)
  | str (s : String)
  | dateStr (ms : Nat)
  | arr (xs : List Json)
  | obj (fields : List (String × Json))

/-- The 5 category strings as they appear in the serialized snapshot. -/
def categoryStr : Category → String
  | Category.work => "work"
  | Category.personal => "personal"
  | Category.shopping => "shopping"
  | Category.health => "health"
  | Category.other => "other"

/-- The 3 priority strings as they appear in the serialized snapshot. -/
def priorityStr : Priority → String
  | Priority.low => "low"
  | Priority.medium => "medium"
  | Priority.high => "high"

/-- `JSON.stringify` of one todo object, structurally: the fields in the
literal order of App.tsx lines 86-93, with `dueDate` omitted when
`undefined` (JSON.stringify drops undefined-valued properties) and
serialised as its ISO string when present. -/
def encodeTodo (t : Todo) : Json :=
  Json.obj
    ([("id", Json.num t.id), ("text", Json.str t.text),
      ("completed", Json.bool t.completed),
      ("category", Json.str (categoryStr t.category)),
      ("priority", Json.str (priorityStr t.priority))] ++
      match t.dueDate with
      | some ms => [("dueDate", Json.dateStr ms)]
      | none => [])

/-- `JSON.stringify(todos)` structurally (the save effect, App.tsx lines
42-44): the array of the encoded todos, in collection order. -/
def encodeTodos (todos : List Todo) : Json :=
  Json.arr (todos.map encodeTodo)

/-- A todo record as it exists in memory after `load`: the raw parsed JSON
fields, with `category` and `priority` as plain strings and `dueDate` as
the timestamp denoted by its ISO string (the loaded value is a string, not
a `Date`; the app only ever reads it back through `new Date(...)`, which
recovers this timestamp). -/
structure RawTodo where
  id : Int
  text : String
  completed : Bool
  category : String
  priority : String
  dueDate : Option Nat
deriving DecidableEq, Repr

/-- Reading one todo record out of a parsed JSON object: the structural
readback of the fields the app accesses on loaded todos (`id`, `text`,
`completed`, `category`, `priority`, `dueDate`). -/
def readTodo : Json → Option RawTodo
  | Json.obj fields =>
    match fields.lookup "id", fields.lookup "text",
        fields.lookup "completed", fields.lookup "category",
        fields.lookup "priority", fields.lookup "dueDate" with
    | some (Json.num id), some (Json.str text), some (Json.bool completed),
        some (Json.str category), some (Json.str priority), due =>
      match due with
      | none => some ⟨id, text, completed, category, priority, none⟩
      | some (Json.dateStr ms) =>
        some ⟨id, text, completed, category, priority, some ms⟩
      | some _ => none
    | _, _, _, _, _, _ => none
  | _ => none

/-- Reading a whole snapshot (an array of todo records) out of parsed
JSON. -/
def readTodos : Json → Option (List RawTodo)
  | Json.arr xs => xs.mapM readTodo
  | _ => none

/-- The raw record a todo becomes after a save/load round trip. -/
def rawOf (t : Todo) : RawTodo :=
  ⟨t.id, t.text, t.completed, categoryStr t.category, priorityStr t.priority,
    t.dueDate⟩

/-- The load effect (App.tsx lines 35-40). The argument is the state of
the `localStorage` slot under the key `todos`, given as the outcome of
`JSON.parse` on the stored string: `none` when the key is absent (the
`if (saved)` guard fails and the initial empty collection stands),
`some (Except.error e)` when the stored string does not parse (in JS,
`JSON.parse` throws `e`; the code has no try/catch, so the exception
propagates), `some (Except.ok j)` when it parses to `j` (the code passes
`j` to `setTodos` unvalidated, so the resulting in-memory value is `j`
itself). The result is the parsed collection state, `Except.error` when
the load effect throws. -/
def loadTodos (saved : Option (Except String Json)) : Except String Json :=
  match saved with
  | none => Except.ok (Json.arr [])
  | some (Except.error e) => Except.error e
  | some (Except.ok j) => Except.ok j

/-- The spec's id-uniqueness invariant: no two todos of the collection
share an `id`. -/
abbrev IdsUnique (todos : List Todo) : Prop :=
  todos.Pairwise fun a b => a.id ≠ b.id

/-- A small concrete collection with distinct ids, used to instantiate
theorems with hypotheses at concrete inputs. -/
def demoTodos : List Todo :=
  [{ id := 1, text := "alpha", completed := false, category := Category.work,
     priority := Priority.high, dueDate := none },
   { id := 2, text := "beta", completed := true,
     category := Category.personal, priority := Priority.low,
     dueDate := some 1709251200000 }]

/-- A concrete collection holding two todos with the same id 7, for the
duplicate-id behaviour of delete. -/
def demoDupTodos : List Todo :=
  [{ id := 7, text := "first", completed := false, category := Category.other,
     priority := Priority.medium, dueDate := none },
   { id := 2, text := "second", completed := true,
     category := Category.shopping, priority := Priority.high,
     dueDate := some 1709596800000 },
   { id := 7, text := "third", completed := false,
     category := Category.health, priority := Priority.low, dueDate := none }]

/-- Task A of the spec's view-pipeline example: priority low, due
2024-03-01 (timestamp 1709251200000). -/
def taskA : Todo :=
  { id := 1, text := "A", completed := false, category := Category.other,
    priority := Priority.low, dueDate := some 1709251200000 }

/-- Task B of the spec's view-pipeline example: priority high, due
2024-03-05 (timestamp 1709596800000). -/
def taskB : Todo :=
  { id := 2, text := "B", completed := false, category := Category.other,
    priority := Priority.high, dueDate := some 1709596800000 }

/-- Task C of the spec's view-pipeline example: priority high, no due
date. -/
def taskC : Todo :=
  { id := 3, text := "C", completed := false, category := Category.other,
    priority := Priority.high, dueDate := none }

/-- C1: the claim says a stored value that is present but unparseable
makes load degrade to the empty collection with no failure reaching the
caller. The code (App.tsx lines 35-40) runs `JSON.parse` with no
try/catch, so on a malformed stored string the parse exception
propagates: the load outcome is the error, not the empty collection that
an absent key produces. -/
theorem load_corrupt_propagates :
    loadTodos (some (Except.error "SyntaxError: Unexpected token")) =
      Except.error "SyntaxError: Unexpected token" ∧
    Except.error "SyntaxError: Unexpected token" ≠
      (Except.ok (Json.arr []) : Except String Json) ∧
    loadTodos none = Except.ok (Json.arr []) :=
  ⟨rfl, by simp, rfl⟩

/-- C2 counterexample: with input `" hi "` (trim non-empty), the appended
todo stores the raw text `" hi "`, not the trimmed `"hi"` the claim
requires — the stored text keeps its leading and trailing whitespace. -/
theorem create_untrimmed_text_counterexample :
    trimStr " hi " ≠ "" ∧
    (createTodo [] 1 " hi " Category.other Priority.medium none).map
      Todo.text = [" hi "] ∧
    trimStr " hi " = "hi" ∧
    (createTodo [] 1 " hi " Category.other Priority.medium none).map
      Todo.text ≠ [trimStr " hi "] := by
  refine ⟨by decide, by decide, by decide, by decide⟩

/-- C2 amended: for every input whose trim is non-empty, the appended
todo's text equals the raw input string itself — non-empty, but possibly
with leading or trailing whitespace (the guard on App.tsx line 85 trims,
the stored field on line 88 does not). -/
theorem create_appends_raw_text (todos : List Todo) (now : Int)
    (inputValue : String) (cat : Category) (prio : Priority)
    (due : Option Nat) (h : trimStr inputValue ≠ "") :
    createTodo todos now inputValue cat prio due =
      todos ++ [{ id := now, text := inputValue, completed := false,
                  category := cat, priority := prio, dueDate := due }] ∧
    inputValue ≠ "" := by
  constructor
  · simp only [createTodo, if_pos h]
  · intro he
    subst he
    exact h rfl

/-- C2 witness: the amended statement at the concrete input `" hi "`. -/
theorem create_appends_raw_text_witness :
    trimStr " hi " ≠ "" ∧
    (createTodo [] 1 " hi " Category.other Priority.medium none =
      [] ++ [{ id := 1, text := " hi ", completed := false,
               category := Category.other, priority := Priority.medium,
               dueDate := none }] ∧
      " hi " ≠ "") :=
  ⟨by decide,
    create_appends_raw_text [] 1 " hi " Category.other Priority.medium none
      (by decide)⟩

/-- C3 counterexample: ids are `Date.now()` values with no freshness
check, so two creates supplied the same millisecond value 5 yield a
reachable collection whose two todos both have id 5 — uniqueness fails. -/
theorem id_unique_counterexample :
    (createTodo
        (createTodo [] 5 "a" Category.other Priority.medium none) 5 "b"
        Category.other Priority.medium none).map Todo.id = [5, 5] ∧
    ¬ IdsUnique
      (createTodo
        (createTodo [] 5 "a" Category.other Priority.medium none) 5 "b"
        Category.other Priority.medium none) := by
  refine ⟨by decide, by decide⟩

/-- C3 amended: toggle and delete always preserve id-uniqueness, and
create preserves it exactly when the `Date.now()` value it is given
differs from every id already present (creates in distinct
milliseconds); the code itself never checks freshness. -/
theorem id_unique_preserved (todos : List Todo) (h : IdsUnique todos) :
    (∀ now inputValue cat prio due, (∀ t ∈ todos, t.id ≠ now) →
      IdsUnique (createTodo todos now inputValue cat prio due)) ∧
    (∀ id, IdsUnique (toggleTodo todos id)) ∧
    (∀ id, IdsUnique (deleteTodo todos id)) := by
  unfold IdsUnique at h ⊢
  refine ⟨?_, ?_, ?_⟩
  · intro now inputValue cat prio due hfresh
    unfold createTodo
    split
    · rw [List.pairwise_append]
      refine ⟨h, List.pairwise_singleton _ _, ?_⟩
      intro a ha b hb
      simp only [List.mem_singleton] at hb
      subst hb
      exact hfresh a ha
    · exact h
  · intro id
    unfold toggleTodo
    rw [List.pairwise_map]
    refine h.imp ?_
    intro a b hab
    have ha : (if a.id = id then { a with completed := !a.completed }
        else a).id = a.id := by
      split <;> rfl
    have hb : (if b.id = id then { b with completed := !b.completed }
        else b).id = b.id := by
      split <;> rfl
    rw [ha, hb]
    exact hab
  · intro id
    exact List.Pairwise.sublist (List.filter_sublist _) h

/-- C3 witness: the amended statement at the concrete two-element
collection with ids 1 and 2. -/
theorem id_unique_preserved_witness :
    IdsUnique demoTodos ∧
    ((∀ now inputValue cat prio due, (∀ t ∈ demoTodos, t.id ≠ now) →
        IdsUnique (createTodo demoTodos now inputValue cat prio due)) ∧
      (∀ id, IdsUnique (toggleTodo demoTodos id)) ∧
      (∀ id, IdsUnique (deleteTodo demoTodos id))) :=
  ⟨by decide, id_unique_preserved demoTodos (by decide)⟩

/-- A map by a function that fixes every element is the identity. -/
theorem map_pointwise_id {α : Type} (f : α → α) (l : List α)
    (h : ∀ x, f x = x) : l.map f = l := by
  induction l with
  | nil => rfl
  | cons a as ih => rw [List.map_cons, h a, ih]

/-- One todo survives an encode/read round trip as its raw record. -/
theorem readTodo_encodeTodo (t : Todo) : readTodo (encodeTodo t) = some (rawOf t) := by
  obtain ⟨id, text, completed, category, priority, dueDate⟩ := t
  cases dueDate <;> rfl

/-- A whole collection survives an encode/read round trip as its list of
raw records, in order. -/
theorem readTodos_encodeTodos (todos : List Todo) :
    readTodos (encodeTodos todos) = some (todos.map rawOf) := by
  have hmap : ∀ l : List Todo,
      (l.map encodeTodo).mapM readTodo = some (l.map rawOf) := by
    intro l
    induction l with
    | nil => rfl
    | cons t ts ih =>
      rw [List.map_cons, List.mapM_cons, readTodo_encodeTodo, ih,
        List.map_cons]
      rfl
  exact hmap todos

/-- C4: create (which triggers a save of the full collection) followed by
load of the just-saved snapshot reproduces an equivalent collection: the
load effect returns the saved JSON value unchanged, reading it back gives
one raw record per todo in the same order, and each raw record carries the
same id, text, completed flag, the category and priority strings of the
original enum values, and the same due-date timestamp (its ISO string
denotes the timestamp injectively, so the textual date form round-trips). -/
theorem create_save_load_roundtrip (todos : List Todo) (now : Int)
    (inputValue : String) (cat : Category) (prio : Priority)
    (due : Option Nat) (_h : trimStr inputValue ≠ "") :
    loadTodos (some (Except.ok
        (encodeTodos (createTodo todos now inputValue cat prio due)))) =
      Except.ok (encodeTodos (createTodo todos now inputValue cat prio due)) ∧
    readTodos (encodeTodos (createTodo todos now inputValue cat prio due)) =
      some ((createTodo todos now inputValue cat prio due).map rawOf) ∧
    List.Forall₂ (fun t r => r.id = t.id ∧ r.text = t.text ∧
        r.completed = t.completed ∧ r.category = categoryStr t.category ∧
        r.priority = priorityStr t.priority ∧ r.dueDate = t.dueDate)
      (createTodo todos now inputValue cat prio due)
      ((createTodo todos now inputValue cat prio due).map rawOf) := by
  refine ⟨rfl, readTodos_encodeTodos _, ?_⟩
  rw [List.forall₂_map_right_iff]
  rw [List.forall₂_same]
  intro t ht
  exact ⟨rfl, rfl, rfl, rfl, rfl, rfl⟩

/-- C4 witness: the round trip at a concrete create on the two-element
demo collection. -/
theorem create_save_load_roundtrip_witness :
    trimStr "gamma" ≠ "" ∧
    (loadTodos (some (Except.ok (encodeTodos (createTodo demoTodos 3 "gamma"
        Category.health Priority.low (some 1709596800000))))) =
      Except.ok (encodeTodos (createTodo demoTodos 3 "gamma"
        Category.health Priority.low (some 1709596800000))) ∧
    readTodos (encodeTodos (createTodo demoTodos 3 "gamma"
        Category.health Priority.low (some 1709596800000))) =
      some ((createTodo demoTodos 3 "gamma"
        Category.health Priority.low (some 1709596800000)).map rawOf) ∧
    List.Forall₂ (fun t r => r.id = t.id ∧ r.text = t.text ∧
        r.completed = t.completed ∧ r.category = categoryStr t.category ∧
        r.priority = priorityStr t.priority ∧ r.dueDate = t.dueDate)
      (createTodo demoTodos 3 "gamma" Category.health Priority.low
        (some 1709596800000))
      ((createTodo demoTodos 3 "gamma" Category.health Priority.low
        (some 1709596800000)).map rawOf)) :=
  ⟨by decide,
    create_save_load_roundtrip demoTodos 3 "gamma" Category.health
      Priority.low (some 1709596800000) (by decide)⟩

/-- C5: the spec's view-pipeline example. With A (low, due 2024-03-01),
B (high, due 2024-03-05), C (high, no due date) inserted in order
[A, B, C], the pipeline with empty search and status `all` yields exactly
[B, C, A]; moreover the comparator sorts ascending by priority rank
(high 0, medium 1, low 2), ties on rank break by due date only when both
sides have one, and the comparator returns 0 whenever either side lacks a
due date, so the stable sort keeps prior order there. -/
theorem view_pipeline_ordering :
    filteredTodos [taskA, taskB, taskC] "" StatusFilter.all =
      [taskB, taskC, taskA] ∧
    priorityOrder Priority.high = 0 ∧
    priorityOrder Priority.medium = 1 ∧
    priorityOrder Priority.low = 2 ∧
    (∀ a b : Todo, priorityOrder a.priority ≠ priorityOrder b.priority →
      cmpTodos a b = priorityOrder a.priority - priorityOrder b.priority) ∧
    (∀ a b : Todo, priorityOrder a.priority = priorityOrder b.priority →
      a.dueDate = none ∨ b.dueDate = none → cmpTodos a b = 0) ∧
    (∀ a b : Todo, ∀ da db : Nat,
      priorityOrder a.priority = priorityOrder b.priority →
      a.dueDate = some da → b.dueDate = some db →
      cmpTodos a b = (da : Int) - (db : Int)) := by
  refine ⟨by decide, rfl, rfl, rfl, ?_, ?_, ?_⟩
  · intro a b hne
    unfold cmpTodos
    rw [if_pos (sub_ne_zero_of_ne hne)]
  · intro a b heq hnone
    unfold cmpTodos
    rw [if_neg (by simp [sub_eq_zero_of_eq heq])]
    rcases hnone with hn | hn
    · rw [hn]
    · rw [hn]
      cases a.dueDate <;> rfl
  · intro a b da db heq ha hb
    unfold cmpTodos
    rw [if_neg (by simp [sub_eq_zero_of_eq heq]), ha, hb]

/-- C6: toggling the same id twice restores the collection — each todo
whose id matches has its completed flag flipped twice, every other todo is
untouched both times. -/
theorem toggle_involution (todos : List Todo) (id : Int) :
    toggleTodo (toggleTodo todos id) id = todos := by
  unfold toggleTodo
  rw [List.map_map]
  apply map_pointwise_id
  intro t
  obtain ⟨i, x, c, cat, pr, d⟩ := t
  by_cases h : i = id
  · simp [Function.comp, h, Bool.not_not]
  · simp [Function.comp, h]

/-- C7: for an id present in the collection, toggle keeps the length, and
pairs every todo positionally with its image, which keeps the same id,
text, category, priority and due date; a todo whose id differs from the
argument is completely unchanged, and a matching todo changes exactly its
completed flag (flipped). -/
theorem toggle_frame (todos : List Todo) (id : Int)
    (_hpresent : ∃ t ∈ todos, t.id = id) :
    (toggleTodo todos id).length = todos.length ∧
    List.Forall₂ (fun t u => u.id = t.id ∧ u.text = t.text ∧
        u.category = t.category ∧ u.priority = t.priority ∧
        u.dueDate = t.dueDate ∧ (t.id ≠ id → u = t) ∧
        (t.id = id → u.completed = !t.completed))
      todos (toggleTodo todos id) := by
  constructor
  · exact List.length_map todos _
  · unfold toggleTodo
    rw [List.forall₂_map_right_iff, List.forall₂_same]
    intro t ht
    by_cases h : t.id = id
    · rw [if_pos h]
      exact ⟨rfl, rfl, rfl, rfl, rfl, fun hne => absurd h hne, fun _ => rfl⟩
    · rw [if_neg h]
      exact ⟨rfl, rfl, rfl, rfl, rfl, fun _ => rfl, fun he => absurd he h⟩

/-- C7 witness: the frame property at the demo collection toggling the
present id 1. -/
theorem toggle_frame_witness :
    (∃ t ∈ demoTodos, t.id = 1) ∧
    ((toggleTodo demoTodos 1).length = demoTodos.length ∧
      List.Forall₂ (fun t u => u.id = t.id ∧ u.text = t.text ∧
          u.category = t.category ∧ u.priority = t.priority ∧
          u.dueDate = t.dueDate ∧ (t.id ≠ 1 → u = t) ∧
          (t.id = 1 → u.completed = !t.completed))
        demoTodos (toggleTodo demoTodos 1)) :=
  ⟨by decide, toggle_frame demoTodos 1 (by decide)⟩

/-- Toggling an id that no todo of the collection carries leaves the
collection unchanged. -/
theorem toggle_absent (todos : List Todo) (id : Int)
    (habsent : ∀ t ∈ todos, t.id ≠ id) : toggleTodo todos id = todos := by
  unfold toggleTodo
  induction todos with
  | nil => rfl
  | cons t ts ih =>
    rw [List.map_cons, if_neg (habsent t (List.mem_cons_self t ts)),
      ih fun u hu => habsent u (List.mem_cons_of_mem t hu)]

/-- Deleting an id that no todo of the collection carries leaves the
collection unchanged. -/
theorem delete_absent (todos : List Todo) (id : Int)
    (habsent : ∀ t ∈ todos, t.id ≠ id) : deleteTodo todos id = todos := by
  unfold deleteTodo
  rw [List.filter_eq_self]
  intro t ht
  exact decide_eq_true (habsent t ht)

/-- C8: missing-entity operations are silent no-ops. After delete(id), a
toggle(id) on the result changes nothing (no todo with that id is left),
and on any collection where the id does not occur both toggle and delete
return the collection unchanged; both operations are total functions, so
no error is ever raised. -/
theorem missing_entity_noop (todos : List Todo) (id : Int) :
    toggleTodo (deleteTodo todos id) id = deleteTodo todos id ∧
    ((∀ t ∈ todos, t.id ≠ id) →
      toggleTodo todos id = todos ∧ deleteTodo todos id = todos) := by
  constructor
  · apply toggle_absent
    intro t ht
    have := List.of_mem_filter ht
    simpa using this
  · intro habsent
    exact ⟨toggle_absent todos id habsent, delete_absent todos id habsent⟩

/-- C8 witness: the no-op behaviour at the demo collection with the
absent id 99. -/
theorem missing_entity_noop_witness :
    (∀ t ∈ demoTodos, t.id ≠ 99) ∧
    (toggleTodo demoTodos 99 = demoTodos ∧ deleteTodo demoTodos 99 = demoTodos) :=
  ⟨by decide, (missing_entity_noop demoTodos 99).2 (by decide)⟩

/-- C9: over the search-filtered collection, the status filter `all`
keeps everything, `active` keeps exactly the todos with completed =
false, `completed` keeps exactly those with completed = true, and the
`active` and `completed` results are disjoint with union (as membership)
equal to the `all` result. -/
theorem status_filter_partition (todos : List Todo) (searchTerm : String) :
    ((todos.filter (searchKeep searchTerm)).filter
        (statusKeep StatusFilter.all) =
      todos.filter (searchKeep searchTerm)) ∧
    (∀ t : Todo, t ∈ (todos.filter (searchKeep searchTerm)).filter
        (statusKeep StatusFilter.active) ↔
      t ∈ todos.filter (searchKeep searchTerm) ∧ t.completed = false) ∧
    (∀ t : Todo, t ∈ (todos.filter (searchKeep searchTerm)).filter
        (statusKeep StatusFilter.completed) ↔
      t ∈ todos.filter (searchKeep searchTerm) ∧ t.completed = true) ∧
    (∀ t : Todo, ¬ (t ∈ (todos.filter (searchKeep searchTerm)).filter
        (statusKeep StatusFilter.active) ∧
      t ∈ (todos.filter (searchKeep searchTerm)).filter
        (statusKeep StatusFilter.completed))) ∧
    (∀ t : Todo, t ∈ (todos.filter (searchKeep searchTerm)).filter
        (statusKeep StatusFilter.all) ↔
      (t ∈ (todos.filter (searchKeep searchTerm)).filter
          (statusKeep StatusFilter.active) ∨
        t ∈ (todos.filter (searchKeep searchTerm)).filter
          (statusKeep StatusFilter.completed))) := by
  have hall : (todos.filter (searchKeep searchTerm)).filter
      (statusKeep StatusFilter.all) = todos.filter (searchKeep searchTerm) :=
    List.filter_eq_self.mpr fun t _ => rfl
  have hactive : ∀ t : Todo,
      t ∈ (todos.filter (searchKeep searchTerm)).filter
        (statusKeep StatusFilter.active) ↔
      t ∈ todos.filter (searchKeep searchTerm) ∧ t.completed = false := by
    intro t
    rw [List.mem_filter]
    unfold statusKeep
    simp
  have hcompleted : ∀ t : Todo,
      t ∈ (todos.filter (searchKeep searchTerm)).filter
        (statusKeep StatusFilter.completed) ↔
      t ∈ todos.filter (searchKeep searchTerm) ∧ t.completed = true := by
    intro t
    rw [List.mem_filter]
    unfold statusKeep
    simp
  refine ⟨hall, hactive, hcompleted, ?_, ?_⟩
  · intro t ⟨hin₁, hin₂⟩
    rw [hactive t] at hin₁
    rw [hcompleted t] at hin₂
    rw [hin₁.2] at hin₂
    exact Bool.false_ne_true hin₂.2
  · intro t
    rw [hall, hactive t, hcompleted t]
    cases hc : t.completed <;> tauto

/-- C10 (implicit): delete(id) removes every todo whose id equals the
argument — none survives and every matching todo, duplicates included,
reaches count 0 — while every non-matching todo keeps its multiplicity,
and the result is a sublist of the original, so the relative insertion
order of the remaining todos is preserved. -/
theorem delete_removes_all_matching (todos : List Todo) (id : Int) :
    (∀ t ∈ deleteTodo todos id, t.id ≠ id) ∧
    (∀ t : Todo, t.id = id → List.count t (deleteTodo todos id) = 0) ∧
    (∀ t : Todo, t.id ≠ id →
      List.count t (deleteTodo todos id) = List.count t todos) ∧
    List.Sublist (deleteTodo todos id) todos := by
  refine ⟨?_, ?_, ?_, List.filter_sublist todos⟩
  · intro t ht
    have := List.of_mem_filter ht
    simpa using this
  · intro t hmatch
    rw [List.count_eq_zero]
    intro hmem
    have := List.of_mem_filter hmem
    rw [decide_eq_true_eq] at this
    exact this hmatch
  · intro t hdiff
    unfold deleteTodo
    induction todos with
    | nil => rfl
    | cons u us ih =>
      by_cases hu : u.id = id
      · rw [List.filter_cons_of_neg (by simpa using hu),
          List.count_cons_of_ne (by rintro rfl; exact hdiff hu), ih]
      · rw [List.filter_cons_of_pos (by simpa using hu)]
        rcases eq_or_ne t u with rfl | hne
        · rw [List.count_cons_self, List.count_cons_self, ih]
        · rw [List.count_cons_of_ne hne, List.count_cons_of_ne hne, ih]

/-- C10 witness: delete at the duplicate-id collection removes both todos
with id 7 and keeps the order of the rest. -/
theorem delete_removes_all_matching_witness :
    (∀ t ∈ deleteTodo demoDupTodos 7, t.id ≠ 7) ∧
    (∀ t : Todo, t.id = 7 → List.count t (deleteTodo demoDupTodos 7) = 0) ∧
    (∀ t : Todo, t.id ≠ 7 →
      List.count t (deleteTodo demoDupTodos 7) = List.count t demoDupTodos) ∧
    List.Sublist (deleteTodo demoDupTodos 7) demoDupTodos :=
  delete_removes_all_matching demoDupTodos 7

end TodoApp
